import Mathlib

/-!
Verification of the TOBIAS BINDetect core (BINDetect_functions.py): a shallow
embedding of the parallel scan-and-score engine and the per-motif differential
statistics pipeline, with theorems checking the natural-language specification
against the code.

Numeric conventions: Python/NumPy floating point values are modelled as
rationals.  Transcendental collaborators (np.log2, math.sqrt as used inside
scipy.stats.norm.fit, and the Student-t tail function inside
scipy.stats.ttest_ind_from_stats) are abstracted as function parameters, so
every theorem quantifies over them; hypotheses state only the properties the
real functions have (for example log2 (1/x) = -log2 x).
-/

/-! ## Rounding (np.round / pandas .round, half-to-even at a fixed number of decimals) -/
/-- Round a rational to the nearest integer, ties to even: the rounding mode of
np.round / pandas round (bankers rounding). -/
def roundHalfEven (q : ℚ) : ℤ :=
  if Int.fract q < 1/2 then ⌊q⌋
  else if 1/2 < Int.fract q then ⌊q⌋ + 1
  else if 2 ∣ ⌊q⌋ then ⌊q⌋ else ⌊q⌋ + 1

/-- np.round(x, 5) / pandas .round(5): round to 5 decimal places, ties to even. -/
def roundTo5 (q : ℚ) : ℚ := (roundHalfEven (q * 100000) : ℚ) / 100000

/-! ## Region model (tobias.utils.regions; data model of the spec, section 3) -/
/-- Genomic interval, `.chrom/.start/.stop` with the invariant start < stop.
The source field name for `stop` is `end`, a reserved word here. -/
structure Region where
  chrom : String
  start : ℤ
  stop : ℤ
deriving DecidableEq, Repr

/-- Region length, `region.get_length()` = end - start. -/
def Region.length (r : Region) : ℕ := (r.stop - r.start).toNat

/-! ## Background sampling (scan_and_score, lines 98-116)

The source seeds the global PRNG with the region length and then draws
`max(1, int(reglen/500))` sample positions from `range(reglen)`:

  random.seed(reglen)
  rand_positions = random.sample(range(reglen), max(1, int(reglen/500)))

Because the PRNG is re-seeded with `reglen` immediately before the draw, the
drawn positions are a pure function of the region length; we model the seeded
generator as a parameter `prng : seed -> count -> positions` where the seed and
the population size are both `reglen`. -/
/-- Number of background positions drawn for a region of length `reglen`:
max(1, int(reglen/500)) with rand_window = 500. -/
def sample_size (reglen : ℕ) : ℕ := max 1 (reglen / 500)

/-- Model of `random.sample(range(population), k)`: returns the PRNG draw when
k ≤ population and fails (ValueError in Python) otherwise. -/
def random_sample (prng : ℕ → ℕ → List ℕ) (population k : ℕ) : Option (List ℕ) :=
  if k ≤ population then some (prng population k) else none

/-- Sampled background positions of a region: seed = population = region
length, count = sample_size. -/
def rand_positions (prng : ℕ → ℕ → List ℕ) (r : Region) : Option (List ℕ) :=
  random_sample prng r.length (sample_size r.length)

/-- Per-region contribution to the background signal sample:
the signal value at each sampled position (`background_signal["signal"]`
appends `footprints[condition][pos]` for each sampled pos).  `sig r` is the
signal accessor for the region (nan already coerced to 0). -/
def region_contrib (prng : ℕ → ℕ → List ℕ) (sig : Region → ℕ → ℚ) (r : Region) : List ℚ :=
  ((rand_positions prng r).getD []).map (sig r)

/-- Background signal sample accumulated over a list of regions, in processing
order. -/
def backgroundSignal (prng : ℕ → ℕ → List ℕ) (sig : Region → ℕ → ℚ)
    (regions : List Region) : List ℚ :=
  (regions.map (region_contrib prng sig)).flatten

/-! ## Motif occurrences and the overlap resolver -/
/-- Motif occurrence (TFBS): motif id, coordinates and raw match score.  The
source field name for `stop` is `end`, a reserved word here. -/
structure Occ where
  name : String
  chrom : String
  start : ℤ
  stop : ℤ
  score : ℚ
deriving DecidableEq, Repr

/-- Half-open interval overlap between two occurrences (same chromosome and
intersecting [start, stop) intervals). -/
def overlapsOcc (a b : Occ) : Bool :=
  decide (a.chrom = b.chrom ∧ a.start < b.stop ∧ b.start < a.stop)

/-- Strict lexicographic comparison of character lists by code point (Python
string comparison). -/
def charListLt : List Char → List Char → Bool
  | [], [] => false
  | [], _ :: _ => true
  | _ :: _, [] => false
  | a :: as, b :: bs =>
    if a.toNat < b.toNat then true
    else if b.toNat < a.toNat then false
    else charListLt as bs

/-- Lexicographic "chromosome, start, end" comparison used by both the
overlap-resolver sort and the statistics-stage sort. -/
def lex3Le (c1 : List Char) (s1 e1 : ℤ) (c2 : List Char) (s2 e2 : ℤ) : Bool :=
  if charListLt c1 c2 then true
  else if charListLt c2 c1 then false
  else if s1 < s2 then true
  else if s2 < s1 then false
  else decide (e1 ≤ e2)

theorem charListLt_cons_iff {a b : Char} {as bs : List Char} :
    charListLt (a :: as) (b :: bs) = true ↔
      a.toNat < b.toNat ∨ (a.toNat = b.toNat ∧ charListLt as bs = true) := by
  show (if a.toNat < b.toNat then true
    else if b.toNat < a.toNat then false else charListLt as bs) = true ↔ _
  by_cases h1 : a.toNat < b.toNat
  · simp [h1]
  · by_cases h2 : b.toNat < a.toNat
    · rw [if_neg h1, if_pos h2]
      simp only [Bool.false_eq_true, false_iff]
      rintro (h | ⟨h, _⟩) <;> omega
    · have he : a.toNat = b.toNat := by omega
      rw [if_neg h1, if_neg h2]
      simp [he, h1]

theorem charListLt_trans : ∀ {a b c : List Char}, charListLt a b = true →
    charListLt b c = true → charListLt a c = true := by
  intro a
  induction a with
  | nil =>
    intro b c h1 h2
    cases c with
    | cons ch cl => simp [charListLt]
    | nil =>
      cases b with
      | nil => simpa [charListLt] using h1
      | cons bh bl => simpa [charListLt] using h2
  | cons ah al ih =>
    intro b c h1 h2
    cases b with
    | nil => simp [charListLt] at h1
    | cons bh bl =>
      cases c with
      | nil => simp [charListLt] at h2
      | cons ch cl =>
        rw [charListLt_cons_iff] at h1 h2 ⊢
        rcases h1 with h1 | ⟨he1, hr1⟩
        · rcases h2 with h2 | ⟨he2, hr2⟩
          · exact Or.inl (by omega)
          · exact Or.inl (by omega)
        · rcases h2 with h2 | ⟨he2, hr2⟩
          · exact Or.inl (by omega)
          · exact Or.inr ⟨by omega, ih hr1 hr2⟩

theorem charListLt_eq : ∀ {a b : List Char}, charListLt a b = false →
    charListLt b a = false → a = b := by
  intro a
  induction a with
  | nil =>
    intro b h1 h2
    cases b with
    | nil => rfl
    | cons bh bl => simp [charListLt] at h1
  | cons ah al ih =>
    intro b h1 h2
    cases b with
    | nil => simp [charListLt] at h2
    | cons bh bl =>
      have n1 : ¬ (ah.toNat < bh.toNat ∨ (ah.toNat = bh.toNat ∧ charListLt al bl = true)) := by
        rw [← charListLt_cons_iff]
        simp [h1]
      have n2 : ¬ (bh.toNat < ah.toNat ∨ (bh.toNat = ah.toNat ∧ charListLt bl al = true)) := by
        rw [← charListLt_cons_iff]
        simp [h2]
      push_neg at n1 n2
      have he : ah.toNat = bh.toNat := by
        have := n1.1
        have := n2.1
        omega
      have hrec : al = bl := by
        apply ih
        · exact Bool.not_eq_true _ ▸ (n1.2 he)
        · exact Bool.not_eq_true _ ▸ (n2.2 he.symm)
      have hch : ah = bh := Char.ext (UInt32.ext he)
      rw [hch, hrec]

theorem lex3Le_iff {c1 c2 : List Char} {s1 e1 s2 e2 : ℤ} :
    lex3Le c1 s1 e1 c2 s2 e2 = true ↔
      charListLt c1 c2 = true ∨
        (charListLt c1 c2 = false ∧ charListLt c2 c1 = false ∧
          (s1 < s2 ∨ (s1 = s2 ∧ e1 ≤ e2))) := by
  unfold lex3Le
  rcases Bool.eq_false_or_eq_true (charListLt c1 c2) with h1 | h1 <;>
    rcases Bool.eq_false_or_eq_true (charListLt c2 c1) with h2 | h2 <;>
      simp [h1, h2] <;> by_cases hs1 : s1 < s2 <;> by_cases hs2 : s2 < s1 <;>
        simp [hs1, hs2] <;> omega

theorem lex3Le_total (c1 : List Char) (s1 e1 : ℤ) (c2 : List Char) (s2 e2 : ℤ) :
    lex3Le c1 s1 e1 c2 s2 e2 = true ∨ lex3Le c2 s2 e2 c1 s1 e1 = true := by
  rcases Bool.eq_false_or_eq_true (charListLt c1 c2) with h1 | h1
  · exact Or.inl (lex3Le_iff.mpr (Or.inl h1))
  · rcases Bool.eq_false_or_eq_true (charListLt c2 c1) with h2 | h2
    · exact Or.inr (lex3Le_iff.mpr (Or.inl h2))
    · rcases Int.lt_trichotomy s1 s2 with hs | hs | hs
      · exact Or.inl (lex3Le_iff.mpr (Or.inr ⟨h1, h2, Or.inl hs⟩))
      · rcases Int.le_total e1 e2 with he | he
        · exact Or.inl (lex3Le_iff.mpr (Or.inr ⟨h1, h2, Or.inr ⟨hs, he⟩⟩))
        · exact Or.inr (lex3Le_iff.mpr (Or.inr ⟨h2, h1, Or.inr ⟨hs.symm, he⟩⟩))
      · exact Or.inr (lex3Le_iff.mpr (Or.inr ⟨h2, h1, Or.inl hs⟩))

theorem lex3Le_trans {c1 c2 c3 : List Char} {s1 e1 s2 e2 s3 e3 : ℤ}
    (h1 : lex3Le c1 s1 e1 c2 s2 e2 = true) (h2 : lex3Le c2 s2 e2 c3 s3 e3 = true) :
    lex3Le c1 s1 e1 c3 s3 e3 = true := by
  rw [lex3Le_iff] at h1 h2 ⊢
  rcases h1 with h1 | ⟨ha1, ha2, h1⟩
  · rcases h2 with h2 | ⟨hb1, hb2, h2⟩
    · exact Or.inl (charListLt_trans h1 h2)
    · have : c2 = c3 := charListLt_eq hb1 hb2
      exact Or.inl (this ▸ h1)
  · rcases h2 with h2 | ⟨hb1, hb2, h2⟩
    · have : c1 = c2 := charListLt_eq ha1 ha2
      exact Or.inl (this ▸ h2)
    · have hcc : c1 = c2 := charListLt_eq ha1 ha2
      subst hcc
      exact Or.inr ⟨hb1, hb2, by omega⟩

/-- Coordinate order on occurrences: chromosome, then start, then stop. -/
def occLe (a b : Occ) : Prop :=
  lex3Le a.chrom.data a.start a.stop b.chrom.data b.start b.stop = true

instance : DecidableRel occLe := fun a b => by
  unfold occLe
  infer_instance

instance : IsTotal Occ occLe :=
  ⟨fun a b => lex3Le_total a.chrom.data a.start a.stop b.chrom.data b.start b.stop⟩

instance : IsTrans Occ occLe := ⟨fun _ _ _ => lex3Le_trans⟩

/-- Sweep over a coordinate-sorted list, keeping a stack of retained
occurrences (most recent first): a new occurrence overlapping the most recently
kept one replaces it when it has a strictly higher match score and is dropped
otherwise (ties keep the earlier one). -/
def sweepKeep : List Occ → List Occ → List Occ
  | kept, [] => kept.reverse
  | [], o :: rest => sweepKeep [o] rest
  | k :: ks, o :: rest =>
      if overlapsOcc k o then
        if decide (k.score < o.score) then sweepKeep (o :: ks) rest
        else sweepKeep (k :: ks) rest
      else sweepKeep (o :: k :: ks) rest

/-- Modelled from the spec: `RegionList.resolve_overlaps` lives in
tobias/utils/regions.py, which is not among the given source files.  Spec
section 4.3: sort by coordinate, sweep, greedy keep-highest-score; of two
overlapping occurrences of the same motif keep the one with the higher match
score, on a tie the earlier one. -/
def resolve_overlaps (occs : List Occ) : List Occ :=
  sweepKeep [] (List.insertionSort occLe occs)

/-! ## Scan-stage routing (scan_and_score, lines 150-167)

The region loop only accumulates occurrences per motif name
(`all_TFBS[TFBS.name].append(TFBS)`); after ALL regions of the worker chunk
have been scanned, the accumulated list of each motif is overlap-resolved once and
sent to the writer queue of that motif as one `qs[name].put((name, bed_content))`. -/
/-- All occurrences produced by scanning the regions of the chunk, in region order.
`scan` is the bound motif-scanning capability (an opaque collaborator). -/
def chunk_occurrences (scan : Region → List Occ) (regions : List Region) : List Occ :=
  (regions.map scan).flatten

/-- Batches sent to the per-motif writer queues by one worker chunk: one batch
per motif name, holding the overlap-resolved occurrences of that motif from
all regions of the chunk. -/
def scan_chunk_emissions (scan : Region → List Occ) (names : List String)
    (regions : List Region) : List (String × List Occ) :=
  names.map (fun n =>
    (n, resolve_overlaps ((chunk_occurrences scan regions).filter (fun o => decide (o.name = n)))))

/-- The emission discipline claimed by the spec (section 4.2 steps 6-7): per
region, group by motif, resolve overlaps within this region only, and emit one
batch per region and motif.  Stated only to be compared with
`scan_chunk_emissions`, which follows the source. -/
def claimed_emissions (scan : Region → List Occ) (names : List String)
    (regions : List Region) : List (String × List Occ) :=
  (regions.map (fun r =>
    names.map (fun n =>
      (n, resolve_overlaps ((scan r).filter (fun o => decide (o.name = n))))))).flatten

/-! ## Per-motif statistics pipeline (process_tfbs) -/
/-- One row of the per-motif table read back from the temporary file
(tab-separated: TFBS chr/start/end/name/score/strand, then the originating
peak columns, then GC, then one signal score per condition).  Signal scores
are modelled as a mapping from condition name to value.  The source field
name for `tfbs_end` is `TFBS_end`. -/
structure TfbsRow where
  tfbs_chr : String
  tfbs_start : ℤ
  tfbs_end : ℤ
  tfbs_name : String
  tfbs_score : ℚ
  strand : String
  peak_chr : String
  peak_start : ℤ
  peak_end : ℤ
  gc : ℚ
  scores : String → ℚ

/-- Default row (used only to read elements out of concrete lists). -/
def defaultRow : TfbsRow :=
  ⟨"", 0, 0, "", 0, "", "", 0, 0, 0, fun _ => 0⟩

instance : Inhabited TfbsRow := ⟨defaultRow⟩

/-- Sort order of `bed_table.sort_values(["TFBS_chr", "TFBS_start", "TFBS_end"])`:
lexicographic on chromosome, start, end. -/
def rowLe (a b : TfbsRow) : Prop :=
  lex3Le a.tfbs_chr.data a.tfbs_start a.tfbs_end b.tfbs_chr.data b.tfbs_start b.tfbs_end = true

instance : DecidableRel rowLe := fun a b => by
  unfold rowLe
  infer_instance

instance : IsTotal TfbsRow rowLe :=
  ⟨fun a b => lex3Le_total a.tfbs_chr.data a.tfbs_start a.tfbs_end b.tfbs_chr.data b.tfbs_start b.tfbs_end⟩

instance : IsTrans TfbsRow rowLe := ⟨fun _ _ _ => lex3Le_trans⟩

/-- Rounding of the per-condition score columns
(`bed_table[condition + "_score"].round(5)`, line 227). -/
def roundScoresRow (conds : List String) (r : TfbsRow) : TfbsRow :=
  { r with scores := fun c => if c ∈ conds then roundTo5 (r.scores c) else r.scores c }

/-- The table preparation of the statistics stage (lines 224-227): sort by
(TFBS_chr, TFBS_start, TFBS_end) and round each condition score column to 5
decimals.  This table then flows unchanged (rows are only annotated with
bound/unbound and log2fc columns) into classification and the overview
outputs; no row is dropped or merged. -/
def stats_stage_table (conds : List String) (table : List TfbsRow) : List TfbsRow :=
  (List.insertionSort rowLe table).map (roundScoresRow conds)

/-- Half-open overlap between the TFBS intervals of two table rows. -/
def overlapRows (a b : TfbsRow) : Bool :=
  decide (a.tfbs_chr = b.tfbs_chr ∧ a.tfbs_start < b.tfbs_end ∧ b.tfbs_start < a.tfbs_end)

/-- Bound/unbound classification (line 238):
`np.where(bed_table[condition + "_score"] > threshold, 1, 0)`. -/
def boundFlag (threshold score : ℚ) : ℕ :=
  if threshold < score then 1 else 0

/-! ## Header naming (process_tfbs, lines 210-222)

Python list slice assignment `l[i:j] = repl` replaces the elements at
positions i..j-1 by `repl` (the list grows or shrinks when lengths differ);
`l[-n:] = repl` counts from the end, and `l[k] = v` sets one element. -/
/-- Python `l[i:j] = repl` for 0 ≤ i ≤ j. -/
def spliceAssign (l : List String) (i j : ℕ) (repl : List String) : List String :=
  l.take i ++ repl ++ l.drop j

/-- The six fixed TFBS column names. -/
def tfbs6 : List String :=
  ["TFBS_chr", "TFBS_start", "TFBS_end", "TFBS_name", "TFBS_score", "TFBS_strand"]

/-- Header construction for the fallback case `args.peak_header_list == None`:

  header = [""]*no_cols
  header[:6] = tfbs6
  no_peak_col = len(header[6:])
  header[6:6+no_peak_col] = ["peak_chr","peak_start","peak_end"]
                            + ["additional_"+str(num+1) for num in range(no_peak_col-3)]
  header[-no_cond:] = [condition+"_score" for condition in cond_names]
  header[-no_cond-1] = "GC"
-/
def make_header (no_cols : ℕ) (cond_names : List String) : List String :=
  let header0 := List.replicate no_cols ""
  let header1 := spliceAssign header0 0 6 tfbs6
  let no_peak_col := no_cols - 6
  let peak_names := ["peak_chr", "peak_start", "peak_end"] ++
    (List.range (no_peak_col - 3)).map (fun num => "additional_" ++ toString (num + 1))
  let header2 := spliceAssign header1 6 (6 + no_peak_col) peak_names
  let no_cond := cond_names.length
  let header3 := spliceAssign header2 (header2.length - no_cond) header2.length
    (cond_names.map (fun c => c ++ "_score"))
  header3.set (header3.length - no_cond - 1) "GC"

/-! ## Differential statistics per comparison (process_tfbs, lines 262-298) -/
/-- Log2 fold change column of one comparison (lines 266-269): the raw value
log2((scoreA + pseudo) / (scoreB + pseudo)) is rounded to 5 decimals before
any further use.  `log2` abstracts np.log2. -/
def lfc_col (log2 : ℚ → ℚ) (pseudo : ℚ) (c1 c2 : String) (r : TfbsRow) : ℚ :=
  roundTo5 (log2 ((r.scores c1 + pseudo) / (r.scores c2 + pseudo)))

/-- Inclusion mask (line 272): at least one of the two condition scores is
above zero. -/
def includedRow (c1 c2 : String) (r : TfbsRow) : Bool :=
  decide (0 < r.scores c1) || decide (0 < r.scores c2)

/-- Peak identifier (line 274): "_".join([chrom, str(start), str(end)]). -/
def peak_id (r : TfbsRow) : String :=
  r.peak_chr ++ "_" ++ toString r.peak_start ++ "_" ++ toString r.peak_end

/-- Arithmetic mean of a list of rationals (np.mean / pandas mean). -/
def listMean (xs : List ℚ) : ℚ := xs.sum / xs.length

/-- The observed log2fc sample entering the fit (lines 272-276): restrict to
included rows, group by peak id, and take the mean log2fc of each group (one
value per distinct peak).  Pandas emits the groups in sorted key order; the
fitted statistics are order-independent, so the groups are listed here in
first-occurrence order of their keys. -/
def observed_log2fcs (log2 : ℚ → ℚ) (pseudo : ℚ) (c1 c2 : String)
    (table : List TfbsRow) : List ℚ :=
  let sub := table.filter (includedRow c1 c2)
  let keys := (sub.map peak_id).dedup
  keys.map (fun k =>
    listMean ((sub.filter (fun r => decide (peak_id r = k))).map (lfc_col log2 pseudo c1 c2)))

/-- Mean of the maximum-likelihood normal fit (scipy.stats.norm.fit): the
sample mean. -/
def norm_fit_mean (xs : List ℚ) : ℚ := listMean xs

/-- Variance of the maximum-likelihood normal fit: the mean squared deviation.
The scale returned by norm.fit is its square root, abstracted below as a
function parameter `sqrtFn` applied to this variance. -/
def norm_fit_var (xs : List ℚ) : ℚ :=
  listMean (xs.map (fun x => (x - listMean xs) ^ 2))

/-- Welch degrees of freedom used by
scipy.stats.ttest_ind_from_stats(..., equal_var=False). -/
def welch_df (s1 : ℚ) (n1 : ℕ) (s2 : ℚ) (n2 : ℕ) : ℚ :=
  let v1 := s1 ^ 2 / n1
  let v2 := s2 ^ 2 / n2
  (v1 + v2) ^ 2 / (v1 ^ 2 / (n1 - 1 : ℚ) + v2 ^ 2 / (n2 - 1 : ℚ))

/-- Two-sided p-value of scipy.stats.ttest_ind_from_stats(m1, s1, n1, m2, s2,
n2, equal_var=False).  Scipy computes t = (m1 - m2) / sqrt(s1^2/n1 + s2^2/n2)
and p = 2 * sf(|t|, df); p is therefore a fixed function of |m1 - m2|, of the
variance term v = s1^2/n1 + s2^2/n2 and of the Welch df (the square root is
injective on nonnegatives), abstracted here as the parameter `tail`. -/
def ttest_pvalue (tail : ℚ → ℚ → ℚ → ℚ) (m1 s1 : ℚ) (n1 : ℕ) (m2 s2 : ℚ) (n2 : ℕ) : ℚ :=
  tail |m1 - m2| (s1 ^ 2 / n1 + s2 ^ 2 / n2) (welch_df s1 n1 s2 n2)

/-- Result of one comparison in the overview row. -/
structure CompResult where
  change : ℚ
  pvalue : ℚ
deriving DecidableEq, Repr

/-- One comparison (cond1, cond2) of the statistics pipeline (lines 262-298):
fit the observed log2fc sample, compare with the externally supplied
background fit (bg_mean, bg_std); when the fitted means differ, the change is
(obs_mean - bg_mean) / np.mean([obs_std, bg_std]) rounded to 5 decimals and
the p-value comes from the two-sample t-test with both sample sizes
min(len(observed), 50000); when they are equal, change = 0 and p-value = 1.
The table argument is the prepared bed_table (see stats_stage_table). -/
def process_comparison_full (tail : ℚ → ℚ → ℚ → ℚ) (log2 : ℚ → ℚ) (sqrtFn : ℚ → ℚ)
    (pseudo : ℚ) (c1 c2 : String) (table : List TfbsRow) (bg_mean bg_std : ℚ) : CompResult :=
  let obs := observed_log2fcs log2 pseudo c1 c2 table
  let obs_mean := norm_fit_mean obs
  let obs_std := sqrtFn (norm_fit_var obs)
  let obs_no := min obs.length 50000
  if obs_mean ≠ bg_mean then
    { change := roundTo5 ((obs_mean - bg_mean) / ((obs_std + bg_std) / 2)),
      pvalue := ttest_pvalue tail obs_mean obs_std obs_no bg_mean bg_std obs_no }
  else
    { change := 0, pvalue := 1 }

/-- Modelled from the spec: the background log2fc sample of a comparison.  The
background fit `log2fc_params[(cond1, cond2)]` is computed in the main
BINDetect script (not among the given source files) from the genome-wide
BackgroundSample; per the spec it is the distribution of log-fold-change
values of paired background signal samples of the two conditions. -/
def bg_log2fcs (log2 : ℚ → ℚ) (pseudo : ℚ) (bgA bgB : List ℚ) : List ℚ :=
  (bgA.zip bgB).map (fun ab => log2 ((ab.1 + pseudo) / (ab.2 + pseudo)))

/-- Modelled from the spec: mean of the background normal fit. -/
def bg_fit_mean (log2 : ℚ → ℚ) (pseudo : ℚ) (bgA bgB : List ℚ) : ℚ :=
  norm_fit_mean (bg_log2fcs log2 pseudo bgA bgB)

/-- Modelled from the spec: scale of the background normal fit. -/
def bg_fit_std (sqrtFn : ℚ → ℚ) (log2 : ℚ → ℚ) (pseudo : ℚ) (bgA bgB : List ℚ) : ℚ :=
  sqrtFn (norm_fit_var (bg_log2fcs log2 pseudo bgA bgB))

/-! ## Error flow of process_tfbs -/
/-- Outcome of one per-motif statistics task: normal return, a Python
exception propagating out of the function, or process termination via
sys.exit(). -/
inductive StepResult (α : Type) where
  | ok : α → StepResult α
  | raised : String → StepResult α
  | exited : StepResult α
deriving DecidableEq, Repr

/-- A task outcome counts as "processing continues" only when the task returns
normally. -/
def StepResult.continues : StepResult α → Bool
  | .ok _ => true
  | _ => false

/-- Error flow of process_tfbs. `tmp_file` is the content of the per-motif
temporary file (`none` = missing/unreadable).  Line 203 reads it with
np.genfromtxt with no surrounding try/except, so a read failure raises out of
the function.  The xlsx overview write (lines 340-352) is wrapped in
try/except whose handler prints the error and calls sys.exit().  Only the
final temporary-file removal (lines 355-358) is logged and tolerated: the
function returns its info row whether or not removal succeeded. -/
def process_tfbs_model (conds : List String) (tmp_file : Option (List TfbsRow))
    (excel_ok remove_ok : Bool) : StepResult (List TfbsRow) :=
  match tmp_file with
  | none => .raised "OSError from np.genfromtxt"
  | some rows =>
    let table := stats_stage_table conds rows
    if excel_ok then
      let _ := remove_ok
      .ok table
    else .exited

/-! ## Demo constants used by concrete witnesses and counterexamples -/
/-- A deterministic stand-in for the seeded PRNG draw, consistent with the
contract of random.sample (returns exactly k positions below the population
size). -/
def prng0 : ℕ → ℕ → List ℕ := fun _ k => List.range k

/-- A constant signal accessor. -/
def sig0 : Region → ℕ → ℚ := fun _ _ => 0

/-- Claim C7 is false as stated: with two regions in one worker chunk, each
scanning to one occurrence of motif M, the worker emits a SINGLE batch for M
covering the whole chunk (not one batch per region), and overlap resolution is
applied across the two regions: the lower-scoring occurrence from the second
region is dropped even though it is the only M occurrence of its region. -/
def r1demo : Region := ⟨"chr1", 0, 600⟩

def r2demo : Region := ⟨"chr1", 500, 1100⟩

def occ1 : Occ := ⟨"M", "chr1", 100, 110, 5⟩

def occ2 : Occ := ⟨"M", "chr1", 105, 115, 3⟩

def scanDemo : Region → List Occ := fun r => if r.start = 0 then [occ1] else [occ2]

/-! ## C1: no second, global overlap-resolution pass in process_tfbs -/
/-- Two overlapping same-motif rows as read from a temporary file (for example
emitted by two different worker chunks, which resolve overlaps only within
their own chunk). -/
def rowA : TfbsRow := ⟨"chr1", 0, 10, "M", 8, "+", "chr1", 0, 100, 1/2, fun _ => 1⟩

def rowB : TfbsRow := ⟨"chr1", 5, 15, "M", 7, "-", "chr1", 0, 100, 1/2, fun _ => 1⟩

/-! ## C2: effect size and the degenerate equal-means case -/
/-- A tail function stand-in (the p-value is irrelevant to the change value). -/
def tail0 : ℚ → ℚ → ℚ → ℚ := fun _ _ _ => 0

/-- A stand-in for np.log2 agreeing with the real log2 at every point where
the counterexample evaluates it: log2 2 = 1. -/
def log20 : ℚ → ℚ := fun x => if x = 2 then 1 else 0

/-- A stand-in for the square root agreeing with the real one at every point
where the counterexample evaluates it: sqrt 0 = 0. -/
def sqrt0 : ℚ → ℚ := fun _ => 0

/-- A row scoring 1 under WT and 0 under KO. -/
def rowC : TfbsRow :=
  ⟨"chr1", 0, 10, "M", 8, "+", "chr1", 0, 100, 1/2, fun c => if c = "WT" then 1 else 0⟩

/-- A log2 stand-in satisfying the sign-flip law. -/
def log2w : ℚ → ℚ := fun _ => 0

/-! ### C6 counterexample over the real numbers

The code stores np.round(np.log2(ratio), 5); the claim asserts the stored
value equals log2(ratio) with no rounding.  For the real np.log2 this fails
at any ratio whose log2 is irrational, e.g. scoreA = 2, scoreB = 0,
pseudocount 1 giving ratio 3. -/
/-- Rounding to the nearest integer, ties to even, over the reals. -/
noncomputable def roundHalfEvenR (x : ℝ) : ℤ :=
  if Int.fract x < 1/2 then ⌊x⌋
  else if 1/2 < Int.fract x then ⌊x⌋ + 1
  else if 2 ∣ ⌊x⌋ then ⌊x⌋ else ⌊x⌋ + 1

/-- np.round(x, 5) over the reals. -/
noncomputable def roundTo5R (x : ℝ) : ℝ := (roundHalfEvenR (x * 100000) : ℝ) / 100000

/-- Real-number semantics of line 268: np.log2((scoreA + pseudo)/(scoreB + pseudo)). -/
noncomputable def np_log2fc (pseudo a b : ℚ) : ℝ :=
  Real.logb 2 (((a : ℝ) + (pseudo : ℝ)) / ((b : ℝ) + (pseudo : ℝ)))

/-- Real-number semantics of the stored column after line 269: the rounded
log2 fold change. -/
noncomputable def np_log2fc_stored (pseudo a b : ℚ) : ℝ :=
  roundTo5R (np_log2fc pseudo a b)

theorem roundHalfEven_neg (q : ℚ) : roundHalfEven (-q) = -roundHalfEven q := by
  unfold roundHalfEven
  by_cases hint : Int.fract q = 0
  · have hq : (⌊q⌋ : ℚ) = q := by
      have h := Int.fract_add_floor q
      rw [hint] at h
      linarith
    have hfn : Int.fract (-q) = 0 := by
      rw [← hq, ← Int.cast_neg, Int.fract_intCast]
    have hfl : ⌊-q⌋ = -⌊q⌋ := by
      conv_lhs => rw [← hq, ← Int.cast_neg]
      rw [Int.floor_intCast]
    rw [hint, hfn, hfl]
    rw [if_pos (show (0:ℚ) < 1/2 by norm_num), if_pos (show (0:ℚ) < 1/2 by norm_num)]
  · have hfr : Int.fract (-q) = 1 - Int.fract q := Int.fract_neg hint
    have h0 : (0:ℚ) ≤ Int.fract q := Int.fract_nonneg q
    have h1 : Int.fract q < 1 := Int.fract_lt_one q
    have hlt0 : (0:ℚ) < Int.fract q := lt_of_le_of_ne h0 (Ne.symm hint)
    have hfq : Int.fract q = q - ⌊q⌋ := rfl
    have hfl : ⌊-q⌋ = -⌊q⌋ - 1 := by
      apply Int.floor_eq_iff.mpr
      constructor
      · push_cast
        linarith [hfq ▸ h1]
      · push_cast
        linarith [hfq ▸ hlt0]
    rcases lt_trichotomy (Int.fract q) (1/2) with hc | hc | hc
    · rw [if_pos hc,
         if_neg (show ¬ Int.fract (-q) < 1/2 by rw [hfr]; push_neg; linarith),
         if_pos (show (1:ℚ)/2 < Int.fract (-q) by rw [hfr]; linarith), hfl]
      ring
    · rw [if_neg (show ¬ Int.fract q < 1/2 by rw [hc]; exact lt_irrefl _),
          if_neg (show ¬ (1:ℚ)/2 < Int.fract q by rw [hc]; exact lt_irrefl _),
          if_neg (show ¬ Int.fract (-q) < 1/2 by rw [hfr, hc]; norm_num),
          if_neg (show ¬ (1:ℚ)/2 < Int.fract (-q) by rw [hfr, hc]; norm_num), hfl]
      by_cases hpar : 2 ∣ ⌊q⌋
      · rw [if_pos hpar, if_neg (show ¬ 2 ∣ (-⌊q⌋ - 1) by omega)]
        ring
      · rw [if_neg hpar, if_pos (show 2 ∣ (-⌊q⌋ - 1) by omega)]
        ring
    · rw [if_pos (show Int.fract (-q) < 1/2 by rw [hfr]; linarith),
          if_neg (show ¬ Int.fract q < 1/2 by linarith),
          if_pos hc, hfl]
      ring

theorem roundTo5_neg (q : ℚ) : roundTo5 (-q) = -roundTo5 q := by
  unfold roundTo5
  rw [show (-q) * 100000 = -(q * 100000) by ring, roundHalfEven_neg]
  push_cast
  ring







/-! ## C4: deterministic background sampling -/
/-- Claim C4 (confirmed): the sampled background positions of a region are a
pure function of the region length (the PRNG is re-seeded with the length
immediately before each draw), so any two regions of equal length draw the
same positions, and running the scan stage over the same regions in any order
or worker partition accumulates the same background sample (the sample is an
unordered statistical aggregate: permuting the regions permutes the sample). -/
theorem c4_background_deterministic (prng : ℕ → ℕ → List ℕ) (sig : Region → ℕ → ℚ)
    (r1 r2 : Region) (hlen : r1.length = r2.length)
    (l1 l2 : List Region) (hperm : l1.Perm l2) :
    rand_positions prng r1 = rand_positions prng r2 ∧
    (backgroundSignal prng sig l1).Perm (backgroundSignal prng sig l2) := by
  constructor
  · unfold rand_positions
    rw [hlen]
  · unfold backgroundSignal
    exact (hperm.map (region_contrib prng sig)).flatten

/-- Witness for C4 at two concrete equal-length regions and a two-region
chunk processed in both orders. -/
theorem c4_witness :
    rand_positions prng0 ⟨"chr1", 0, 600⟩ = rand_positions prng0 ⟨"chr2", 100, 700⟩ ∧
    (backgroundSignal prng0 sig0 [⟨"chr1", 0, 600⟩, ⟨"chr2", 100, 700⟩]).Perm
      (backgroundSignal prng0 sig0 [⟨"chr2", 100, 700⟩, ⟨"chr1", 0, 600⟩]) :=
  c4_background_deterministic prng0 sig0 _ _ (by decide) _ _ (by decide)

/-! ## C9: pathologically short regions -/
/-- Claim C9 is false as stated: a pathologically short region (here length 3,
for which int(reglen/500) = 0) never contributes zero samples, because the
sample count is clamped to max(1, int(reglen/500)) = 1; the region contributes
exactly one sampled position. -/
theorem c9_counterexample :
    (3 : ℕ) / 500 = 0 ∧ sample_size 3 = 1 ∧
    region_contrib prng0 sig0 ⟨"chr1", 0, 3⟩ ≠ [] := by
  refine ⟨rfl, rfl, ?_⟩
  decide

/-- Claim C9 amended: a pathologically short region does not crash the scan
stage and processing continues, but it contributes max(1, int(reglen/500)) ≥ 1
sampled positions (never zero): for every region of length at least 1 the
clamped sample count never exceeds the population, so random.sample succeeds.
`hprng` is the contract of random.sample (a draw of exactly k positions). -/
theorem c9_short_region_no_crash (prng : ℕ → ℕ → List ℕ)
    (hprng : ∀ s k, (prng s k).length = k) (sig : Region → ℕ → ℚ) (r : Region)
    (hlen : 1 ≤ r.length) :
    (rand_positions prng r).isSome = true ∧
    (region_contrib prng sig r).length = sample_size r.length ∧
    1 ≤ sample_size r.length := by
  have hk : sample_size r.length ≤ r.length := by
    unfold sample_size
    have h := Nat.div_le_self r.length 500
    omega
  refine ⟨?_, ?_, ?_⟩
  · simp [rand_positions, random_sample, hk]
  · simp [region_contrib, rand_positions, random_sample, hk, hprng]
  · unfold sample_size
    omega

/-- Witness for C9 at a concrete length-3 region. -/
theorem c9_witness :
    (∀ s k, (prng0 s k).length = k) ∧ 1 ≤ (Region.mk "chr1" 0 3).length ∧
    ((rand_positions prng0 ⟨"chr1", 0, 3⟩).isSome = true ∧
     (region_contrib prng0 sig0 ⟨"chr1", 0, 3⟩).length = sample_size (Region.mk "chr1" 0 3).length ∧
     1 ≤ sample_size (Region.mk "chr1" 0 3).length) :=
  ⟨fun _ k => List.length_range k, by decide,
   c9_short_region_no_crash prng0 (fun _ k => List.length_range k) sig0 _ (by decide)⟩

/-! ## C7: scan-stage overlap resolution and emission granularity -/
theorem sweepKeep_mem {x : Occ} : ∀ (rest kept : List Occ),
    x ∈ sweepKeep kept rest → x ∈ kept ∨ x ∈ rest := by
  intro rest
  induction rest with
  | nil =>
    intro kept h
    rw [sweepKeep] at h
    exact Or.inl (List.mem_reverse.mp h)
  | cons o rest ih =>
    intro kept h
    cases kept with
    | nil =>
      rw [sweepKeep] at h
      rcases ih [o] h with h1 | h1
      · rw [List.mem_singleton] at h1
        subst h1
        exact Or.inr (List.mem_cons_self _ _)
      · exact Or.inr (List.mem_cons_of_mem _ h1)
    | cons k ks =>
      rw [sweepKeep] at h
      split at h
      · split at h
        · rcases ih _ h with h1 | h1
          · rcases List.mem_cons.mp h1 with h2 | h2
            · subst h2
              exact Or.inr (List.mem_cons_self _ _)
            · exact Or.inl (List.mem_cons_of_mem _ h2)
          · exact Or.inr (List.mem_cons_of_mem _ h1)
        · rcases ih _ h with h1 | h1
          · exact Or.inl h1
          · exact Or.inr (List.mem_cons_of_mem _ h1)
      · rcases ih _ h with h1 | h1
        · rcases List.mem_cons.mp h1 with h2 | h2
          · subst h2
            exact Or.inr (List.mem_cons_self _ _)
          · exact Or.inl h2
        · exact Or.inr (List.mem_cons_of_mem _ h1)

/-- The overlap resolver only ever returns occurrences of its input. -/
theorem resolve_overlaps_subset {x : Occ} {occs : List Occ}
    (h : x ∈ resolve_overlaps occs) : x ∈ occs := by
  unfold resolve_overlaps at h
  rcases sweepKeep_mem _ _ h with h1 | h1
  · exact absurd h1 (List.not_mem_nil x)
  · exact (List.perm_insertionSort occLe occs).mem_iff.mp h1

theorem c7_counterexample :
    scan_chunk_emissions scanDemo ["M"] [r1demo, r2demo] ≠
      claimed_emissions scanDemo ["M"] [r1demo, r2demo] ∧
    (scan_chunk_emissions scanDemo ["M"] [r1demo, r2demo]).length = 1 ∧
    (claimed_emissions scanDemo ["M"] [r1demo, r2demo]).length = 2 ∧
    occ2 ∉ ((scan_chunk_emissions scanDemo ["M"] [r1demo, r2demo]).map Prod.snd).flatten ∧
    occ2 ∈ ((claimed_emissions scanDemo ["M"] [r1demo, r2demo]).map Prod.snd).flatten := by
  refine ⟨?_, ?_, ?_, ?_, ?_⟩ <;> decide

/-- Claim C7 amended: during scanning, overlap resolution for each motif is
applied once per worker chunk, across the occurrences of ALL of its
regions (not within each region separately), after the whole chunk has been
scanned; each motif then receives exactly one batch write per chunk, and every
emitted occurrence stems from scanning some region of the chunk and carries
the motif name of its batch. -/
theorem c7_chunk_batches (scan : Region → List Occ) (names : List String)
    (regions : List Region) :
    (scan_chunk_emissions scan names regions).map Prod.fst = names ∧
    (∀ n, n ∈ names →
      (n, resolve_overlaps ((chunk_occurrences scan regions).filter
        (fun o => decide (o.name = n)))) ∈ scan_chunk_emissions scan names regions) ∧
    ∀ p, p ∈ scan_chunk_emissions scan names regions → ∀ o, o ∈ p.2 →
      o ∈ chunk_occurrences scan regions ∧ o.name = p.1 := by
  refine ⟨?_, ?_, ?_⟩
  · simp [scan_chunk_emissions, List.map_map, Function.comp_def]
  · intro n hn
    exact List.mem_map.mpr ⟨n, hn, rfl⟩
  · intro p hp o ho
    rcases List.mem_map.mp hp with ⟨n, hn, rfl⟩
    have h1 := resolve_overlaps_subset ho
    have h2 := List.mem_filter.mp h1
    refine ⟨h2.1, ?_⟩
    simpa using h2.2

/-- Witness for C7 on the concrete two-region chunk. -/
theorem c7_witness :
    ("M", [occ1]) ∈ scan_chunk_emissions scanDemo ["M"] [r1demo, r2demo] ∧
    (occ1 ∈ chunk_occurrences scanDemo [r1demo, r2demo] ∧ occ1.name = "M") :=
  ⟨by decide,
   (c7_chunk_batches scanDemo ["M"] [r1demo, r2demo]).2.2 ("M", [occ1]) (by decide)
     occ1 (by decide)⟩

/-- Claim C1 is false as stated: process_tfbs only sorts the rows of the motif by
(chr, start, end) and rounds the score columns; it applies no second
overlap-resolution pass, so the classified table can contain two overlapping
occurrences of the motif. -/
theorem c1_counterexample :
    (stats_stage_table ["WT"] [rowA, rowB]).length = 2 ∧
    overlapRows ((stats_stage_table ["WT"] [rowA, rowB]).getD 0 defaultRow)
      ((stats_stage_table ["WT"] [rowA, rowB]).getD 1 defaultRow) = true :=
  ⟨rfl, rfl⟩

/-- Claim C1 amended: the statistics pipeline sorts the full occurrence
stream by chromosome, start, end (the output is pairwise ordered) but applies
NO global overlap-resolution pass before bound/unbound classification: the
classified table contains exactly the input occurrences (with score columns
rounded to 5 decimals), as a permutation, so overlapping occurrences from
different worker chunks are retained. -/
theorem c1_no_global_overlap_resolution (conds : List String) (table : List TfbsRow) :
    (stats_stage_table conds table).Perm (table.map (roundScoresRow conds)) ∧
    List.Pairwise rowLe (stats_stage_table conds table) := by
  constructor
  · exact (List.perm_insertionSort rowLe table).map (roundScoresRow conds)
  · unfold stats_stage_table
    rw [List.pairwise_map]
    have hs := List.sorted_insertionSort rowLe table
    exact List.Pairwise.imp (fun {a b} hab => hab) hs

/-! ## C3: error containment in process_tfbs -/
/-- Claim C3 is false as stated: a missing temporary occurrence file makes
process_tfbs raise (np.genfromtxt is not wrapped in try/except), and a failed
xlsx overview write makes it call sys.exit() - in neither case does the
function skip the row and continue. -/
theorem c3_counterexample :
    (process_tfbs_model ["WT"] none true true).continues = false ∧
    (process_tfbs_model ["WT"] (some [rowA]) false true).continues = false ∧
    process_tfbs_model ["WT"] none true true = .raised "OSError from np.genfromtxt" ∧
    process_tfbs_model ["WT"] (some [rowA]) false true = .exited :=
  ⟨rfl, rfl, rfl, rfl⟩

/-- Claim C3 amended: in process_tfbs, a missing/unreadable temporary file
raises an unhandled exception out of the motif task, and an output xlsx write
failure terminates the process via sys.exit(); only the final temporary-file
removal failure is tolerated (logged, with the info row of the motif still returned).
The read and write failures are therefore NOT contained to a skipped row
inside process_tfbs itself. -/
theorem c3_error_flow (conds : List String) (rows : List TfbsRow)
    (excel_ok remove_ok : Bool) :
    process_tfbs_model conds none excel_ok remove_ok = .raised "OSError from np.genfromtxt" ∧
    process_tfbs_model conds (some rows) false remove_ok = .exited ∧
    process_tfbs_model conds (some rows) true remove_ok = .ok (stats_stage_table conds rows) :=
  ⟨rfl, rfl, rfl⟩

/-! ## C10: fallback header naming -/
/-- Claim C10 (confirmed): with args.peak_header_list = None, for a table of
6 + npeak + 1 + no_cond columns (six TFBS columns, npeak ≥ 3 peak columns, GC,
one score column per condition, no_cond ≥ 1), the header is the six fixed TFBS
names, then peak_chr, peak_start, peak_end, then additional_1, additional_2,
... for the remaining peak columns, then GC, then one condition_score column
per condition in condition order.  (The source first names ALL trailing
columns with the peak scheme and then overwrites the last no_cond + 1 slots
with the score names and GC, which nets out to exactly this header.) -/
theorem c10_header_fallback (npeak : ℕ) (cond_names : List String)
    (h3 : 3 ≤ npeak) (h1 : 1 ≤ cond_names.length) :
    make_header (6 + npeak + 1 + cond_names.length) cond_names =
      tfbs6 ++ ["peak_chr", "peak_start", "peak_end"] ++
        (List.range (npeak - 3)).map (fun num => "additional_" ++ toString (num + 1)) ++
        ["GC"] ++ cond_names.map (fun c => c ++ "_score") := by
  obtain ⟨m, rfl⟩ := Nat.exists_eq_add_of_le h3
  set f := fun num : ℕ => "additional_" ++ toString (num + 1) with hf
  set scores := cond_names.map (fun c => c ++ "_score") with hscores
  set n := cond_names.length with hn
  have hns : scores.length = n := by
    rw [hscores, hn, List.length_map]
  have hcols : 6 + (3 + m) + 1 + n = 10 + m + n := by omega
  rw [hcols]
  simp only [make_header]
  rw [← hscores, ← hn]
  have e1 : spliceAssign (List.replicate (10 + m + n) "") 0 6 tfbs6
      = tfbs6 ++ List.replicate (4 + m + n) "" := by
    unfold spliceAssign
    rw [List.take_zero, List.nil_append, List.drop_replicate]
    have h : 10 + m + n - 6 = 4 + m + n := by omega
    rw [h]
  rw [e1]
  have hpc : 10 + m + n - 6 - 3 = 1 + m + n := by omega
  rw [hpc]
  have e2 : spliceAssign (tfbs6 ++ List.replicate (4 + m + n) "") 6 (6 + (10 + m + n - 6))
      (["peak_chr", "peak_start", "peak_end"] ++ (List.range (1 + m + n)).map f)
      = tfbs6 ++ (["peak_chr", "peak_start", "peak_end"] ++ (List.range (1 + m + n)).map f) := by
    unfold spliceAssign
    rw [List.take_left' (show tfbs6.length = 6 from rfl),
       List.drop_eq_nil_of_le (by simp [tfbs6]; omega), List.append_nil]
  rw [e2]
  have hlen2 : (tfbs6 ++ (["peak_chr", "peak_start", "peak_end"] ++
      (List.range (1 + m + n)).map f)).length = 10 + m + n := by
    simp [tfbs6]
    omega
  rw [hlen2]
  have e3 : spliceAssign (tfbs6 ++ (["peak_chr", "peak_start", "peak_end"] ++
      (List.range (1 + m + n)).map f)) (10 + m + n - n) (10 + m + n) scores
      = (tfbs6 ++ ["peak_chr", "peak_start", "peak_end"] ++ (List.range (1 + m)).map f)
        ++ scores := by
    unfold spliceAssign
    rw [List.drop_eq_nil_of_le (le_of_eq hlen2), List.append_nil]
    have hidx : 10 + m + n - n = (tfbs6 ++ ["peak_chr", "peak_start", "peak_end"]).length + (1 + m) := by
      simp [tfbs6]
      omega
    rw [← List.append_assoc, hidx, List.take_append, ← List.map_take, List.take_range]
    have hmin : (1 + m) ⊓ (1 + m + n) = 1 + m := by omega
    rw [hmin, List.append_assoc]
  rw [e3]
  have hlen3 : ((tfbs6 ++ ["peak_chr", "peak_start", "peak_end"] ++
      (List.range (1 + m)).map f) ++ scores).length = 10 + m + n := by
    simp [tfbs6, hns]
    omega
  rw [hlen3]
  have hidx2 : 10 + m + n - n - 1 = 9 + m := by omega
  rw [hidx2]
  have hlenA : (tfbs6 ++ ["peak_chr", "peak_start", "peak_end"] ++
      (List.range (1 + m)).map f).length = 10 + m := by
    simp [tfbs6]
    omega
  rw [List.set_append_left _ _ (by rw [hlenA]; omega)]
  have e4 : (tfbs6 ++ ["peak_chr", "peak_start", "peak_end"] ++
      (List.range (1 + m)).map f).set (9 + m) "GC"
      = tfbs6 ++ ["peak_chr", "peak_start", "peak_end"] ++ ((List.range m).map f ++ ["GC"]) := by
    rw [List.set_append_right _ _ (by simp [tfbs6])]
    have hidx3 : 9 + m - (tfbs6 ++ ["peak_chr", "peak_start", "peak_end"]).length = m := by
      simp [tfbs6]
    rw [hidx3]
    have hr : List.range (1 + m) = List.range m ++ [m] := by
      rw [show 1 + m = m + 1 from by omega, List.range_succ]
    rw [hr, List.map_append, List.set_append_right _ _ (by simp),
       show m - ((List.range m).map f).length = 0 from by simp]
    rfl
  rw [e4]
  have hfinal : 3 + m - 3 = m := by omega
  rw [hfinal]
  simp only [List.append_assoc]

/-- Witness for C10 with four peak columns and two conditions. -/
theorem c10_witness :
    make_header (6 + 4 + 1 + ["WT", "KO"].length) ["WT", "KO"] =
      tfbs6 ++ ["peak_chr", "peak_start", "peak_end"] ++
        (List.range (4 - 3)).map (fun num => "additional_" ++ toString (num + 1)) ++
        ["GC"] ++ ["WT", "KO"].map (fun c => c ++ "_score") :=
  c10_header_fallback 4 ["WT", "KO"] (by omega) (by simp)

theorem roundTo5_one : roundTo5 1 = 1 := by
  unfold roundTo5 roundHalfEven Int.fract
  norm_num

theorem roundTo5_two_thirds : roundTo5 (2/3) = 66667/100000 := by
  have hfl : ⌊(2/3 : ℚ) * 100000⌋ = 66666 := by norm_num
  have hfr : Int.fract ((2/3 : ℚ) * 100000) = 2/3 := by
    unfold Int.fract
    rw [hfl]
    norm_num
  unfold roundTo5 roundHalfEven
  rw [hfr, hfl, if_neg (by norm_num), if_pos (by norm_num)]
  norm_num

/-- The observed log2fc sample of the one-row demo table: a single included
row forming a single peak group with value log2 2 = 1. -/
theorem obs_demo : observed_log2fcs log20 1 "WT" "KO" [rowC] = [1] := by
  unfold observed_log2fcs includedRow lfc_col
  norm_num [rowC, log20, listMean, roundTo5_one]
  rw [if_neg (show ¬ ("KO" = "WT") from by decide)]
  norm_num [roundTo5_one]

theorem obs_demo_mean : norm_fit_mean (observed_log2fcs log20 1 "WT" "KO" [rowC]) = 1 := by
  rw [obs_demo]
  norm_num [norm_fit_mean, listMean]

/-- Claim C2 is false as stated: in the non-degenerate branch the reported
change is the effect size ROUNDED to 5 decimals (np.round at line 289), not
the raw quotient.  Here the observed fit gives mean 1 (log2 of ratio 2) and
the background (0, 3), so the quotient is 2/3 while the reported change is
0.66667. -/
theorem c2_counterexample :
    (process_comparison_full tail0 log20 sqrt0 1 "WT" "KO" [rowC] 0 3).change ≠
      (norm_fit_mean (observed_log2fcs log20 1 "WT" "KO" [rowC]) - 0) /
        ((sqrt0 (norm_fit_var (observed_log2fcs log20 1 "WT" "KO" [rowC])) + 3) / 2) := by
  simp only [process_comparison_full, obs_demo_mean, sqrt0]
  rw [if_pos (by norm_num : (1:ℚ) ≠ 0)]
  have hq : ((1:ℚ) - 0) / ((0 + 3) / 2) = 2/3 := by norm_num
  simp only [hq, roundTo5_two_thirds]
  norm_num

/-- Claim C2 amended: when the fitted observed mean equals the background
mean, the reported change is exactly 0 and the reported p-value exactly 1;
otherwise the reported change is (obs_mean - bg_mean) / mean(obs_std, bg_std)
rounded to 5 decimal places (half-even). -/
theorem c2_change_and_degenerate (tail : ℚ → ℚ → ℚ → ℚ) (log2 sqrtFn : ℚ → ℚ)
    (pseudo : ℚ) (c1 c2 : String) (table : List TfbsRow) (bg_mean bg_std : ℚ) :
    (norm_fit_mean (observed_log2fcs log2 pseudo c1 c2 table) = bg_mean →
      process_comparison_full tail log2 sqrtFn pseudo c1 c2 table bg_mean bg_std = ⟨0, 1⟩) ∧
    (norm_fit_mean (observed_log2fcs log2 pseudo c1 c2 table) ≠ bg_mean →
      (process_comparison_full tail log2 sqrtFn pseudo c1 c2 table bg_mean bg_std).change =
        roundTo5 ((norm_fit_mean (observed_log2fcs log2 pseudo c1 c2 table) - bg_mean) /
          ((sqrtFn (norm_fit_var (observed_log2fcs log2 pseudo c1 c2 table)) + bg_std) / 2))) := by
  constructor
  · intro h
    simp only [process_comparison_full]
    rw [if_neg (not_not_intro h)]
  · intro h
    simp only [process_comparison_full]
    rw [if_pos h]

/-- Witness for C2 at the concrete one-row table. -/
theorem c2_witness :
    norm_fit_mean (observed_log2fcs log20 1 "WT" "KO" [rowC]) ≠ 0 ∧
    (process_comparison_full tail0 log20 sqrt0 1 "WT" "KO" [rowC] 0 3).change =
      roundTo5 ((norm_fit_mean (observed_log2fcs log20 1 "WT" "KO" [rowC]) - 0) /
        ((sqrt0 (norm_fit_var (observed_log2fcs log20 1 "WT" "KO" [rowC])) + 3) / 2)) :=
  ⟨by rw [obs_demo_mean]; norm_num,
   (c2_change_and_degenerate tail0 log20 sqrt0 1 "WT" "KO" [rowC] 0 3).2
     (by rw [obs_demo_mean]; norm_num)⟩

/-! ## C8: p-value via the two-sample t-test with capped sample sizes -/
/-- Claim C8 (confirmed): in the unequal-means case the p-value is the
two-sample (Welch) t-test p-value computed from the fitted observed summary
statistics against the background summary statistics, with both sample sizes
entering the test equal to min(len(observed_log2fcs), 50000), hence capped at
50000 each. -/
theorem c8_pvalue_ttest (tail : ℚ → ℚ → ℚ → ℚ) (log2 sqrtFn : ℚ → ℚ) (pseudo : ℚ)
    (c1 c2 : String) (table : List TfbsRow) (bg_mean bg_std : ℚ)
    (h : norm_fit_mean (observed_log2fcs log2 pseudo c1 c2 table) ≠ bg_mean) :
    (process_comparison_full tail log2 sqrtFn pseudo c1 c2 table bg_mean bg_std).pvalue =
      ttest_pvalue tail (norm_fit_mean (observed_log2fcs log2 pseudo c1 c2 table))
        (sqrtFn (norm_fit_var (observed_log2fcs log2 pseudo c1 c2 table)))
        (min (observed_log2fcs log2 pseudo c1 c2 table).length 50000)
        bg_mean bg_std (min (observed_log2fcs log2 pseudo c1 c2 table).length 50000) ∧
    min (observed_log2fcs log2 pseudo c1 c2 table).length 50000 ≤ 50000 := by
  constructor
  · simp only [process_comparison_full]
    rw [if_pos h]
  · exact Nat.min_le_right _ _

/-- Witness for C8 at the concrete one-row table. -/
theorem c8_witness :
    norm_fit_mean (observed_log2fcs log20 1 "WT" "KO" [rowC]) ≠ 0 ∧
    ((process_comparison_full tail0 log20 sqrt0 1 "WT" "KO" [rowC] 0 3).pvalue =
      ttest_pvalue tail0 (norm_fit_mean (observed_log2fcs log20 1 "WT" "KO" [rowC]))
        (sqrt0 (norm_fit_var (observed_log2fcs log20 1 "WT" "KO" [rowC])))
        (min (observed_log2fcs log20 1 "WT" "KO" [rowC]).length 50000)
        0 3 (min (observed_log2fcs log20 1 "WT" "KO" [rowC]).length 50000) ∧
     min (observed_log2fcs log20 1 "WT" "KO" [rowC]).length 50000 ≤ 50000) :=
  ⟨by rw [obs_demo_mean]; norm_num,
   c8_pvalue_ttest tail0 log20 sqrt0 1 "WT" "KO" [rowC] 0 3
     (by rw [obs_demo_mean]; norm_num)⟩

/-! ## C5: antisymmetry of the comparison under condition swap -/
theorem listMean_map_neg (xs : List ℚ) :
    listMean (xs.map (fun x => -x)) = - listMean xs := by
  unfold listMean
  rw [← List.sum_neg, List.length_map, neg_div]

theorem norm_fit_var_map_neg (xs : List ℚ) :
    norm_fit_var (xs.map (fun x => -x)) = norm_fit_var xs := by
  unfold norm_fit_var
  rw [listMean_map_neg, List.map_map]
  have h : ((fun x => (x - -listMean xs) ^ 2) ∘ fun x : ℚ => -x)
      = fun x : ℚ => (x - listMean xs) ^ 2 := by
    funext x
    simp only [Function.comp_apply]
    ring
  rw [h]

theorem includedRow_comm (c1 c2 : String) (r : TfbsRow) :
    includedRow c2 c1 r = includedRow c1 c2 r := Bool.or_comm _ _

theorem lfc_col_swap (log2 : ℚ → ℚ) (hlog : ∀ x : ℚ, log2 x⁻¹ = - log2 x)
    (pseudo : ℚ) (c1 c2 : String) (r : TfbsRow) :
    lfc_col log2 pseudo c2 c1 r = - lfc_col log2 pseudo c1 c2 r := by
  unfold lfc_col
  rw [show (r.scores c2 + pseudo) / (r.scores c1 + pseudo)
      = ((r.scores c1 + pseudo) / (r.scores c2 + pseudo))⁻¹ by rw [inv_div],
    hlog, roundTo5_neg]

theorem observed_log2fcs_swap (log2 : ℚ → ℚ) (hlog : ∀ x : ℚ, log2 x⁻¹ = - log2 x)
    (pseudo : ℚ) (c1 c2 : String) (table : List TfbsRow) :
    observed_log2fcs log2 pseudo c2 c1 table =
      (observed_log2fcs log2 pseudo c1 c2 table).map (fun x => -x) := by
  unfold observed_log2fcs
  have hfilter : table.filter (includedRow c2 c1) = table.filter (includedRow c1 c2) :=
    List.filter_congr (fun r _ => includedRow_comm c1 c2 r)
  rw [hfilter, List.map_map]
  apply List.map_congr_left
  intro k _
  have h1 : (List.filter (fun r => decide (peak_id r = k))
        (List.filter (includedRow c1 c2) table)).map (lfc_col log2 pseudo c2 c1)
      = ((List.filter (fun r => decide (peak_id r = k))
        (List.filter (includedRow c1 c2) table)).map (lfc_col log2 pseudo c1 c2)).map
          (fun x => -x) := by
    rw [List.map_map]
    exact List.map_congr_left (fun r _ => lfc_col_swap log2 hlog pseudo c1 c2 r)
  rw [h1, listMean_map_neg]
  rfl

theorem bg_log2fcs_swap (log2 : ℚ → ℚ) (hlog : ∀ x : ℚ, log2 x⁻¹ = - log2 x)
    (pseudo : ℚ) (bgA bgB : List ℚ) :
    bg_log2fcs log2 pseudo bgB bgA = (bg_log2fcs log2 pseudo bgA bgB).map (fun x => -x) := by
  unfold bg_log2fcs
  rw [← List.zip_swap bgA bgB, List.map_map, List.map_map]
  apply List.map_congr_left
  intro ab _
  show log2 ((ab.2 + pseudo) / (ab.1 + pseudo)) = - log2 ((ab.1 + pseudo) / (ab.2 + pseudo))
  rw [show (ab.2 + pseudo) / (ab.1 + pseudo)
      = ((ab.1 + pseudo) / (ab.2 + pseudo))⁻¹ by rw [inv_div], hlog]

/-- Claim C5 (confirmed): for the same prepared table and the background fits
of the two orientations of the same background data, the comparison (B, A)
reports exactly the negated change of (A, B) and the identical p-value.  The
hypothesis on the abstract log2 is the defining property of the real np.log2
used in both the observed and the background log2fc computations. -/
theorem c5_comparison_antisymmetry (tail : ℚ → ℚ → ℚ → ℚ) (log2 sqrtFn : ℚ → ℚ)
    (hlog : ∀ x : ℚ, log2 x⁻¹ = - log2 x) (pseudo : ℚ) (c1 c2 : String)
    (table : List TfbsRow) (bgA bgB : List ℚ) :
    (process_comparison_full tail log2 sqrtFn pseudo c2 c1 table
        (bg_fit_mean log2 pseudo bgB bgA) (bg_fit_std sqrtFn log2 pseudo bgB bgA)).change
      = - (process_comparison_full tail log2 sqrtFn pseudo c1 c2 table
        (bg_fit_mean log2 pseudo bgA bgB) (bg_fit_std sqrtFn log2 pseudo bgA bgB)).change ∧
    (process_comparison_full tail log2 sqrtFn pseudo c2 c1 table
        (bg_fit_mean log2 pseudo bgB bgA) (bg_fit_std sqrtFn log2 pseudo bgB bgA)).pvalue
      = (process_comparison_full tail log2 sqrtFn pseudo c1 c2 table
        (bg_fit_mean log2 pseudo bgA bgB) (bg_fit_std sqrtFn log2 pseudo bgA bgB)).pvalue := by
  have hbgm : bg_fit_mean log2 pseudo bgB bgA = - bg_fit_mean log2 pseudo bgA bgB := by
    unfold bg_fit_mean norm_fit_mean
    rw [bg_log2fcs_swap log2 hlog pseudo, listMean_map_neg]
  have hbgs : bg_fit_std sqrtFn log2 pseudo bgB bgA = bg_fit_std sqrtFn log2 pseudo bgA bgB := by
    unfold bg_fit_std
    rw [bg_log2fcs_swap log2 hlog pseudo, norm_fit_var_map_neg]
  have hm : norm_fit_mean ((observed_log2fcs log2 pseudo c1 c2 table).map (fun x => -x))
      = - norm_fit_mean (observed_log2fcs log2 pseudo c1 c2 table) := by
    unfold norm_fit_mean
    exact listMean_map_neg _
  have hv := norm_fit_var_map_neg (observed_log2fcs log2 pseudo c1 c2 table)
  simp only [process_comparison_full]
  rw [observed_log2fcs_swap log2 hlog pseudo c1 c2 table, hbgm, hbgs, hm, hv,
    List.length_map]
  set m := norm_fit_mean (observed_log2fcs log2 pseudo c1 c2 table) with hmdef
  set bg := bg_fit_mean log2 pseudo bgA bgB with hbgdef
  set s := sqrtFn (norm_fit_var (observed_log2fcs log2 pseudo c1 c2 table)) with hsdef
  set t := bg_fit_std sqrtFn log2 pseudo bgA bgB with htdef
  set nn := min (observed_log2fcs log2 pseudo c1 c2 table).length 50000 with hndef
  by_cases hmb : m = bg
  · rw [hmb]
    rw [if_neg (by simp), if_neg (by simp)]
    exact ⟨by simp, rfl⟩
  · rw [if_pos (show -m ≠ -bg by simpa using hmb), if_pos hmb]
    constructor
    · show roundTo5 ((-m - -bg) / ((s + t) / 2)) = - roundTo5 ((m - bg) / ((s + t) / 2))
      rw [show (-m - -bg) / ((s + t) / 2) = -((m - bg) / ((s + t) / 2)) by ring, roundTo5_neg]
    · show ttest_pvalue tail (-m) s nn (-bg) t nn = ttest_pvalue tail m s nn bg t nn
      unfold ttest_pvalue
      rw [show -m - -bg = -(m - bg) by ring, abs_neg]

/-- Witness for C5 at concrete inputs. -/
theorem c5_witness :
    (∀ x : ℚ, log2w x⁻¹ = - log2w x) ∧
    ((process_comparison_full tail0 log2w sqrt0 1 "KO" "WT" [rowC]
        (bg_fit_mean log2w 1 [2] [1]) (bg_fit_std sqrt0 log2w 1 [2] [1])).change
      = - (process_comparison_full tail0 log2w sqrt0 1 "WT" "KO" [rowC]
        (bg_fit_mean log2w 1 [1] [2]) (bg_fit_std sqrt0 log2w 1 [1] [2])).change ∧
     (process_comparison_full tail0 log2w sqrt0 1 "KO" "WT" [rowC]
        (bg_fit_mean log2w 1 [2] [1]) (bg_fit_std sqrt0 log2w 1 [2] [1])).pvalue
      = (process_comparison_full tail0 log2w sqrt0 1 "WT" "KO" [rowC]
        (bg_fit_mean log2w 1 [1] [2]) (bg_fit_std sqrt0 log2w 1 [1] [2])).pvalue) :=
  ⟨fun x => by simp [log2w],
   c5_comparison_antisymmetry tail0 log2w sqrt0 (fun x => by simp [log2w]) 1 "WT" "KO"
     [rowC] [1] [2]⟩

/-! ## C6: per-occurrence log2fc, inclusion filter and peak collapse -/
theorem filter_map_nodup_singleton {α β : Type} [DecidableEq β] (f : α → β) :
    ∀ (l : List α) (r : α), (l.map f).Nodup → r ∈ l →
      l.filter (fun x => decide (f x = f r)) = [r] := by
  intro l
  induction l with
  | nil =>
    intro r _ h
    exact absurd h (List.not_mem_nil r)
  | cons a t ih =>
    intro r hnd hr
    rw [List.map_cons, List.nodup_cons] at hnd
    rcases List.mem_cons.mp hr with h | hrt
    · subst h
      rw [List.filter_cons_of_pos (by simp)]
      have ht : t.filter (fun x => decide (f x = f r)) = [] := by
        apply List.filter_eq_nil_iff.mpr
        intro x hx
        simp only [decide_eq_true_eq]
        intro hfx
        exact hnd.1 (hfx ▸ List.mem_map_of_mem f hx)
      rw [ht]
    · rw [List.filter_cons_of_neg ?_, ih r hnd.2 hrt]
      simp only [decide_eq_true_eq]
      intro hfa
      exact hnd.1 (hfa ▸ List.mem_map_of_mem f hrt)

/-- Claim C6 amended: the log-fold-change stored per occurrence is
log2((scoreA + pseudocount)/(scoreB + pseudocount)) ROUNDED to 5 decimals
(line 269); only rows with at least one of the two scores above zero enter;
the included rows are grouped by peak id with one fitted value per distinct
peak, each group contributing the mean of the stored log2fcs of its members; when
all included rows lie in distinct peaks the fitted sample is exactly the list
of their stored per-occurrence values. -/
theorem c6_fit_input (log2 : ℚ → ℚ) (pseudo : ℚ) (c1 c2 : String) (table : List TfbsRow) :
    (observed_log2fcs log2 pseudo c1 c2 table).length =
      ((table.filter (includedRow c1 c2)).map peak_id).dedup.length ∧
    (∀ k, k ∈ ((table.filter (includedRow c1 c2)).map peak_id).dedup →
      listMean (((table.filter (includedRow c1 c2)).filter
        (fun r => decide (peak_id r = k))).map (lfc_col log2 pseudo c1 c2)) ∈
        observed_log2fcs log2 pseudo c1 c2 table) ∧
    (((table.filter (includedRow c1 c2)).map peak_id).Nodup →
      observed_log2fcs log2 pseudo c1 c2 table =
        (table.filter (includedRow c1 c2)).map (lfc_col log2 pseudo c1 c2)) := by
  refine ⟨?_, ?_, ?_⟩
  · unfold observed_log2fcs
    rw [List.length_map]
  · intro k hk
    unfold observed_log2fcs
    exact List.mem_map.mpr ⟨k, hk, rfl⟩
  · intro hnd
    simp only [observed_log2fcs]
    rw [List.dedup_eq_self.mpr hnd, List.map_map]
    apply List.map_congr_left
    intro r hr
    simp only [Function.comp_apply]
    rw [filter_map_nodup_singleton peak_id _ r hnd hr]
    show listMean [lfc_col log2 pseudo c1 c2 r] = _
    unfold listMean
    norm_num

/-- Witness for C6 at the concrete one-row table, whose single included row is
its own peak group. -/
theorem c6_witness :
    (([rowC].filter (includedRow "WT" "KO")).map peak_id).Nodup ∧
    observed_log2fcs log20 1 "WT" "KO" [rowC] =
      ([rowC].filter (includedRow "WT" "KO")).map (lfc_col log20 1 "WT" "KO") :=
  ⟨by simp [includedRow, rowC], (c6_fit_input log20 1 "WT" "KO" [rowC]).2.2
    (by simp [includedRow, rowC])⟩

theorem logb_two_three_irrational (q : ℚ) : Real.logb 2 3 ≠ (q : ℝ) := by
  intro h
  have hpos : (0:ℝ) < Real.logb 2 3 := Real.logb_pos (by norm_num) (by norm_num)
  have hqpos : (0:ℚ) < q := by
    have hq : (0:ℝ) < (q:ℝ) := h ▸ hpos
    exact_mod_cast hq
  have h23 : (2:ℝ) ^ (q:ℝ) = 3 := by
    rw [← h]
    exact Real.rpow_logb (by norm_num) (by norm_num) (by norm_num)
  have hd : ((2:ℝ) ^ (q:ℝ)) ^ (q.den : ℕ) = (3:ℝ) ^ (q.den : ℕ) := by rw [h23]
  rw [← Real.rpow_natCast ((2:ℝ) ^ (q:ℝ)) q.den, ← Real.rpow_mul (by norm_num)] at hd
  have hden0 : ((q.den : ℝ)) ≠ 0 := Nat.cast_ne_zero.mpr q.den_nz
  have hqd : (q : ℝ) * ((q.den : ℕ) : ℝ) = ((q.num : ℤ) : ℝ) := by
    rw [Rat.cast_def]
    field_simp
  rw [hqd] at hd
  have hnum : 0 < q.num := Rat.num_pos.mpr hqpos
  have hna : ((q.num : ℤ) : ℝ) = ((q.num.toNat : ℕ) : ℝ) := by
    norm_cast
    omega
  rw [hna, Real.rpow_natCast] at hd
  have hnat : (2:ℕ) ^ q.num.toNat = 3 ^ q.den := by exact_mod_cast hd
  have h2dvd : 2 ∣ (2:ℕ) ^ q.num.toNat := dvd_pow_self 2 (by omega)
  rw [hnat] at h2dvd
  have h23' := Nat.Prime.dvd_of_dvd_pow Nat.prime_two h2dvd
  omega

/-- Claim C6 is false as stated: the stored per-occurrence log-fold-change is
NOT equal to log2((scoreA + pseudocount)/(scoreB + pseudocount)) - at scores
(2, 0) with pseudocount 1 the ratio is 3, log2 3 is irrational, and the stored
value is a 5-decimal rational. -/
theorem c6_counterexample : np_log2fc_stored 1 2 0 ≠ np_log2fc 1 2 0 := by
  have hval : np_log2fc 1 2 0 = Real.logb 2 3 := by
    unfold np_log2fc
    norm_num
  intro h
  set n := roundHalfEvenR (np_log2fc 1 2 0 * 100000) with hndef
  have hn : np_log2fc_stored 1 2 0 = ((n : ℤ) : ℝ) / 100000 := rfl
  have h2 : np_log2fc 1 2 0 = ((n : ℤ) : ℝ) / 100000 := h.symm.trans hn
  apply logb_two_three_irrational ((n : ℚ) / 100000)
  rw [← hval, h2]
  push_cast
  ring
